import Mathlib

/-!
Verification of the venus developer tooling: the state-type-gen code
generator (a single-pass AST scanner and alias renderer) and the generated
RPC proxy structs of venus-shared/api/gateway/v1/proxy_gen.go.

The generator is embedded shallowly: syntax nodes become a closed inductive
type carrying exactly the data the visitor inspects, the visitor and the
renderer become pure functions, the external collaborators (package location
lookup, directory parsing, source formatting) become function parameters
returning Except values, and the single file write at the end of a run is
reported as an explicit list of write operations.  A Go panic (an
out-of-bounds slice index) is modelled as the Option value none.
-/

namespace StateTypeGen

/-- Error values surfaced by the external helpers; opaque messages. -/
abbrev Err := String

/-- The underlying shape of a type spec, as the visitor inspects it through
the two type assertions on st.Type. -/
inductive GoType
  | structType
  | identType
  | otherType
deriving DecidableEq

/-- The syntax nodes metaVisitor.Visit distinguishes.  Every other node kind
the walk can deliver falls into otherNode, which the source handles by the
final return. -/
inductive Node
  | typeSpec (name : String) (ty : GoType)
  | funcDecl (name : String) (hasRecv : Bool)
  | valueSpec (names : List String)
  | otherNode
deriving DecidableEq

/-- A source file, abstracted to the preorder sequence of nodes ast.Walk
presents to the visitor. -/
abbrev GoFile := List Node

/-- Go token.IsExported: the first rune of the identifier is upper case.
Identifier names in this development are ASCII, so Char.isUpper agrees with
unicode.IsUpper on every string we inspect. -/
def isExported (s : String) : Bool :=
  match s.data with
  | [] => false
  | c :: _ => c.isUpper

/-- The fixed type skip set (the skips map in the source). -/
def skips : List String :=
  ["State", "MinerInfo", "ConstructState", "Partition", "Deadline"]

/-- The fixed function skip set (the skipFuncs map in the source). -/
def skipFuncs : List String := ["ConstructState"]

/-- The fixed rename table (the alias map in the source): original type name
to the list of (owning package, substituted name) pairs. -/
def renameTable : List (String × List (String × String)) :=
  [("WithdrawBalanceParams",
    [("market", "MarketWithdrawBalanceParams"),
     ("miner", "MinerWithdrawBalanceParams")])]

/-- The fixed allow-list for constant and variable names (the expectVals map
in the source). -/
def expectVals : List String := ["NoAllocationID"]

/-- The per-package collection state (the metaVisitor struct): the package
name and the three name lists for functions, types and values. -/
structure MetaVisitor where
  pkgName : String
  f : List String := []
  t : List String := []
  v : List String := []
deriving DecidableEq

/-- metaVisitor.Visit on one node.  Mirrors the source branch by branch.  In
the value-spec branch the source evaluates vt.Names[0] before testing
len(vt.Names) == 0, so an empty name list is an out-of-bounds access: that
is the none result.  The subsequent length test is kept even though it can
no longer fire, exactly as in the source. -/
def visitNode (vis : MetaVisitor) (node : Node) : Option MetaVisitor :=
  match node with
  | .typeSpec name ty =>
      if !(isExported name) then some vis
      else
        let ok := ty == .structType
        let ok3 := ty == .identType
        if !(skips.contains name) && (ok || ok3) then
          some { vis with t := vis.t ++ [name] }
        else some vis
  | .funcDecl name hasRecv =>
      if !(isExported name) || hasRecv then some vis
      else if !(skipFuncs.contains name) then
        some { vis with f := vis.f ++ [name] }
      else some vis
  | .valueSpec names =>
      match names.head? with
      | none => none
      | some n0 =>
          if !(isExported n0) || names.length == 0 then some vis
          else if expectVals.contains n0 then
            some { vis with v := vis.v ++ [n0] }
          else some vis
  | .otherNode => some vis

/-- ast.Walk over the node sequence of one file: Visit always hands back the
same visitor, so the traversal is a left fold which stops only on panic. -/
def walkNodes (vis : MetaVisitor) : List Node → Option MetaVisitor
  | [] => some vis
  | n :: rest =>
      match visitNode vis n with
      | none => none
      | some vis2 => walkNodes vis2 rest

/-- The two nested loops of run over the parse result: walk every file of
the directory with the one shared visitor. -/
def walkFiles (vis : MetaVisitor) : List GoFile → Option MetaVisitor
  | [] => some vis
  | file :: rest =>
      match walkNodes vis file with
      | none => none
      | some vis2 => walkFiles vis2 rest

example :
    walkNodes { pkgName := "market" }
      [Node.typeSpec "Foo" .structType, Node.typeSpec "State" .structType,
       Node.funcDecl "Bar" false, Node.valueSpec ["Baz"]]
    = some { pkgName := "market", f := ["Bar"], t := ["Foo"], v := [] } := by
  decide

example : visitNode { pkgName := "market" } (Node.valueSpec []) = none := by
  decide

/-- Lexicographic strict order on character lists.  Go compares strings by
their UTF-8 bytes; byte order and code-point order agree under UTF-8, so
this is the order the Go less functions f[i] < f[j] compute. -/
def charListLt : List Char → List Char → Bool
  | [], [] => false
  | [], _ :: _ => true
  | _ :: _, [] => false
  | a :: as, b :: bs =>
      if a < b then true else if b < a then false else charListLt as bs

/-- The Go string comparison a < b. -/
def goLt (a b : String) : Bool := charListLt a.data b.data

/-- The reflexive closure, a ≤ b, as not (b < a). -/
def goLe (a b : String) : Bool := !(goLt b a)

/-- The sort relation as a proposition, for the Mathlib sorting lemmas. -/
def goLeP (a b : String) : Prop := goLe a b = true

instance : DecidableRel goLeP := fun a b => by
  unfold goLeP; infer_instance

/-- sort.Slice with the strict less a < b on strings.  Any sorting algorithm
produces the same list here, because a sorted permutation of a multiset of
strings is unique; insertion sort is the Mathlib one with a full lemma
suite. -/
def sortStrings (l : List String) : List String :=
  l.insertionSort goLeP

/-- A pending package descriptor: logical name, import path, revision. -/
structure PendingPkg where
  name : String
  path : String
  ver : Nat
deriving DecidableEq

/-- The fixed path stem of the scanned module. -/
def prePath : String := "github.com/filecoin-project/go-state-types/builtin"

/-- The fmt.Sprintf building an import path from a version and a name. -/
def pkgPath (ver : Nat) (name : String) : String :=
  prePath ++ "/v" ++ toString ver ++ "/" ++ name

/-- The pendingPkgs map, as the association list it is built from: paych is
pinned to version 8, the other three follow the latest actors version, which
is a constant of a package outside this tool and is therefore a parameter
here. -/
def pendingPkgs (latest : Nat) : List (String × PendingPkg) :=
  ("paych", ⟨"paych", pkgPath 8 "paych", 8⟩) ::
    (["market", "miner", "verifreg"].map fun n =>
      (n, ⟨n, pkgPath latest n, latest⟩))

/-- toList: collect the map values and sort them by package name.  The map
iteration order the source starts from is irrelevant because of the sort. -/
def toList (pkgs : List (String × PendingPkg)) : List PendingPkg :=
  (pkgs.map Prod.snd).insertionSort (fun a b => goLeP a.name b.name)

/-- Map lookup pendingPkgs[name]. -/
def lookupPkg (latest : Nat) (name : String) : Option PendingPkg :=
  (pendingPkgs latest).lookup name

/-- One buffer append of writeFile.  Each constructor stands for one Fprintf
or Fprintln call; renderItem below carries the exact format strings. -/
inductive Item
  | header
  | importOpen
  | importLine (path : String)
  | importClose
  | separator (pkg : String)
  | typeAlias (newName pkg oldName : String)
  | varLine (name pkg : String)
  | constLine (name pkg : String)
  | groupEnd
deriving DecidableEq

/-- The exact text each buffer append produces. -/
def renderItem : Item → String
  | .header =>
      "// Code generated by github.com/filecoin-project/venus/venus-devtool/state-type-gen. DO NOT EDIT.\npackage types\n\n"
  | .importOpen => "import (\n"
  | .importLine path => "\x22" ++ path ++ "\x22\n"
  | .importClose => ")\n\n"
  | .separator pkg => "////////// " ++ pkg ++ " //////////\n"
  | .typeAlias newName pkg oldName =>
      "type " ++ newName ++ " = " ++ pkg ++ "." ++ oldName ++ "\n"
  | .varLine name pkg => "var " ++ name ++ " = " ++ pkg ++ "." ++ name ++ "\n"
  | .constLine name pkg =>
      "const " ++ name ++ " = " ++ pkg ++ "." ++ name ++ "\n"
  | .groupEnd => "\n\n"

/-- The assembled buffer text. -/
def renderItems (items : List Item) : String :=
  String.join (items.map renderItem)

/-- The lines writeFile emits for one collected type name: when the name
keys the rename table, one aliased line per entry whose package matches the
group; otherwise the alias under the original name. -/
def typeItems (pkg typ : String) : List Item :=
  match renameTable.lookup typ with
  | some vals =>
      vals.filterMap fun val =>
        if val.1 == pkg then some (.typeAlias val.2 pkg typ) else none
  | none => [.typeAlias typ pkg typ]

/-- The declaration group writeFile emits for one package: separator, type
aliases, function forwarders, constant bindings, trailing blank lines. -/
def groupItems (m : MetaVisitor) : List Item :=
  .separator m.pkgName ::
    (m.t.flatMap (typeItems m.pkgName) ++
      m.f.map (fun n => .varLine n m.pkgName) ++
      m.v.map (fun n => .constLine n m.pkgName) ++
      [.groupEnd])

/-- The import loop of writeFile: one import line per meta, through the map
lookup pendingPkgs[meta.pkgName].  A missing key would be a nil dereference
in the source, hence none. -/
def buildImports (latest : Nat) : List MetaVisitor → Option (List Item)
  | [] => some []
  | m :: rest =>
      match lookupPkg latest m.pkgName with
      | none => none
      | some p =>
          match buildImports latest rest with
          | none => none
          | some items => some (.importLine p.path :: items)

/-- The whole buffer writeFile assembles before formatting: header, then the
block of imports, then one group per meta in the order given. -/
def buildItems (latest : Nat) (metas : List MetaVisitor) : Option (List Item) :=
  match buildImports latest metas with
  | none => none
  | some imps =>
      some (Item.header :: Item.importOpen :: imps ++ [Item.importClose] ++
        metas.flatMap groupItems)

/-- A write to the filesystem: destination path and bytes written. -/
abbrev WriteOp := String × String

/-- writeFile: assemble the buffer, run it through the external formatter,
and only on success write the destination file.  The list records the write
operations performed; the formatter util.FmtFile is a parameter since it
lives outside this tool. -/
def writeFile (latest : Nat) (fmtFile : String → Except Err String)
    (dst : String) (metas : List MetaVisitor) :
    Option (Except Err Unit × List WriteOp) :=
  match buildItems latest metas with
  | none => none
  | some items =>
      match fmtFile (renderItems items) with
      | .error e => some (.error e, [])
      | .ok out => some (.ok (), [(dst, out)])

/-- The two sort.Slice calls of run after a package's walk: sort the
function and type lists; the value list is left exactly as collected. -/
def finishVisitor (vis : MetaVisitor) : MetaVisitor :=
  { vis with f := sortStrings vis.f, t := sortStrings vis.t }

/-- The package loop of run: resolve the location, parse the directory, walk
every file, sort the function and type lists (the value list is left as
collected), and accumulate the visitor.  The first failure is returned as is
and ends the loop. -/
def runAux (locate : String → Except Err String)
    (parse : String → Except Err (List GoFile)) :
    List PendingPkg → List MetaVisitor → Option (Except Err (List MetaVisitor))
  | [], acc => some (.ok acc)
  | p :: rest, acc =>
      match locate p.path with
      | .error e => some (.error e)
      | .ok location =>
          match parse location with
          | .error e => some (.error e)
          | .ok files =>
              match walkFiles { pkgName := p.name } files with
              | none => none
              | some vis =>
                  runAux locate parse rest (acc ++ [finishVisitor vis])

/-- run up to, but not including, the final writeFile call. -/
def runMetas (latest : Nat) (locate : String → Except Err String)
    (parse : String → Except Err (List GoFile)) :
    Option (Except Err (List MetaVisitor)) :=
  runAux locate parse (toList (pendingPkgs latest)) []

/-- run: scan every pending package, then write the destination file.  The
external collaborators (util.FindPackageLocation, parser.ParseDir,
util.FmtFile) are parameters; none is a Go panic; the write-operation list
is the whole filesystem effect of the call. -/
def run (latest : Nat) (locate : String → Except Err String)
    (parse : String → Except Err (List GoFile))
    (fmtFile : String → Except Err String) (dst : String) :
    Option (Except Err Unit × List WriteOp) :=
  match runMetas latest locate parse with
  | none => none
  | some (.error e) => some (.error e, [])
  | some (.ok metas) => writeFile latest fmtFile dst metas

example :
    toList (pendingPkgs 0) =
      [⟨"market", pkgPath 0 "market", 0⟩, ⟨"miner", pkgPath 0 "miner", 0⟩,
       ⟨"paych", pkgPath 8 "paych", 8⟩,
       ⟨"verifreg", pkgPath 0 "verifreg", 0⟩] := by
  decide

example :
    run 9 (fun _ => .error "no pkg") (fun _ => .ok []) (fun s => .ok s) "x"
      = some (.error "no pkg", []) := rfl

lemma charListLt_irrefl : ∀ l : List Char, charListLt l l = false := by
  intro l
  induction l with
  | nil => rfl
  | cons a as ih => simp [charListLt, ih]

lemma charListLt_asymm :
    ∀ {as bs : List Char}, charListLt as bs = true → charListLt bs as = false := by
  intro as
  induction as with
  | nil => intro bs h; cases bs <;> simp_all [charListLt]
  | cons a as ih =>
      intro bs h
      cases bs with
      | nil => simp [charListLt] at h
      | cons b bs =>
          simp only [charListLt] at h ⊢
          rcases lt_trichotomy a b with hab | hab | hab
          · simp [hab, not_lt_of_gt hab]
          · subst hab
            simp only [lt_irrefl, if_false] at h ⊢
            exact ih h
          · simp [hab, not_lt_of_gt hab] at h

lemma charListLt_trans :
    ∀ {as bs cs : List Char}, charListLt as bs = true → charListLt bs cs = true →
      charListLt as cs = true := by
  intro as
  induction as with
  | nil =>
      intro bs cs h1 h2
      cases bs with
      | nil => simp [charListLt] at h1
      | cons b bs => cases cs with
        | nil => simp [charListLt] at h2
        | cons c cs => simp [charListLt]
  | cons a as ih =>
      intro bs cs h1 h2
      cases bs with
      | nil => simp [charListLt] at h1
      | cons b bs =>
          cases cs with
          | nil => simp [charListLt] at h2
          | cons c cs =>
              simp only [charListLt] at h1 h2 ⊢
              rcases lt_trichotomy a b with hab | hab | hab
              · rcases lt_trichotomy b c with hbc | hbc | hbc
                · have hac : a < c := lt_trans hab hbc
                  simp [hac]
                · subst hbc; simp [hab]
                · simp [hbc, not_lt_of_gt hbc] at h2
              · subst hab
                rcases lt_trichotomy a c with hac | hac | hac
                · simp [hac]
                · subst hac
                  simp only [lt_irrefl, if_false] at h1 h2 ⊢
                  exact ih h1 h2
                · simp [not_lt_of_gt hac, hac] at h2
              · simp [hab, not_lt_of_gt hab] at h1

lemma charListLt_connex :
    ∀ {as bs : List Char}, charListLt as bs = false → charListLt bs as = false →
      as = bs := by
  intro as
  induction as with
  | nil => intro bs h1 _; cases bs <;> simp_all [charListLt]
  | cons a as ih =>
      intro bs h1 h2
      cases bs with
      | nil => simp [charListLt] at h2
      | cons b bs =>
          simp only [charListLt] at h1 h2
          rcases lt_trichotomy a b with hab | hab | hab
          · simp [hab] at h1
          · subst hab
            simp only [lt_irrefl, if_false] at h1 h2
            exact congrArg (a :: ·) (ih h1 h2)
          · simp [hab] at h2

lemma goLeP_refl (a : String) : goLeP a a := by
  simp [goLeP, goLe, goLt, charListLt_irrefl]

instance : IsTotal String goLeP where
  total a b := by
    simp only [goLeP, goLe, goLt, Bool.not_eq_true']
    cases h : charListLt b.data a.data
    · left; rfl
    · right; exact charListLt_asymm h

instance : IsTrans String goLeP where
  trans a b c h1 h2 := by
    simp only [goLeP, goLe, goLt, Bool.not_eq_true'] at h1 h2 ⊢
    cases hca : charListLt c.data a.data
    · rfl
    · cases hab : charListLt a.data b.data
      · have hdb : a.data = b.data := charListLt_connex hab h1
        rw [hdb] at hca
        rw [hca] at h2
        exact h2
      · have hcb : charListLt c.data b.data = true := charListLt_trans hca hab
        rw [hcb] at h2
        exact h2

instance : IsAntisymm String goLeP where
  antisymm a b h1 h2 := by
    simp only [goLeP, goLe, goLt, Bool.not_eq_true'] at h1 h2
    exact String.ext (charListLt_connex h2 h1)

/-- Two permuted string lists sort to the same list: sorted permutations of
one multiset coincide. -/
lemma sortStrings_perm_eq {l1 l2 : List String} (h : l1.Perm l2) :
    sortStrings l1 = sortStrings l2 := by
  apply List.eq_of_perm_of_sorted (r := goLeP)
  · exact (List.perm_insertionSort goLeP l1).trans
      (h.trans (List.perm_insertionSort goLeP l2).symm)
  · exact List.sorted_insertionSort goLeP l1
  · exact List.sorted_insertionSort goLeP l2

lemma sorted_sortStrings (l : List String) : (sortStrings l).Sorted goLeP :=
  List.sorted_insertionSort goLeP l

lemma sortStrings_count (l : List String) (n : String) :
    (sortStrings l).count n = l.count n :=
  (List.perm_insertionSort goLeP l).count_eq n

/-- The name the type-spec branch of Visit records from a node, if any:
exported, not skipped, struct or identifier shaped. -/
def recordType : Node → Option String
  | .typeSpec name ty =>
      if isExported name && !(skips.contains name) &&
          (ty == .structType || ty == .identType) then some name
      else none
  | _ => none

/-- The name the function branch of Visit records from a node, if any:
exported, no receiver, not skipped. -/
def recordFunc : Node → Option String
  | .funcDecl name hasRecv =>
      if isExported name && !hasRecv && !(skipFuncs.contains name) then
        some name
      else none
  | _ => none

/-- The name the value branch of Visit records from a node, if any: the
first name of the spec, when it is exported and allow-listed. -/
def recordValue : Node → Option String
  | .valueSpec (n0 :: _) =>
      if isExported n0 && expectVals.contains n0 then some n0 else none
  | _ => none

/-- The nodes on which Visit performs an out-of-bounds access. -/
def panics : Node → Bool
  | .valueSpec [] => true
  | _ => false

lemma filterMap_cons_toList {α β : Type} (f : α → Option β) (a : α)
    (l : List α) : List.filterMap f (a :: l) = (f a).toList ++ List.filterMap f l := by
  cases h : f a <;> simp [h]

/-- One Visit step, characterised: panic on an empty value spec, otherwise
append whatever the three branches record. -/
lemma visitNode_eq (vis : MetaVisitor) (node : Node) :
    visitNode vis node =
      if panics node then none
      else some ⟨vis.pkgName, vis.f ++ (recordFunc node).toList,
        vis.t ++ (recordType node).toList, vis.v ++ (recordValue node).toList⟩ := by
  cases node with
  | typeSpec name ty =>
      cases hE : isExported name <;>
        rcases Decidable.em (name ∈ skips) with hS | hS <;>
        cases hT : (ty == GoType.structType || ty == GoType.identType) <;>
          simp [visitNode, recordType, recordFunc, recordValue, panics, hE, hS, hT]
  | funcDecl name hasRecv =>
      cases hE : isExported name <;>
        cases hR : hasRecv <;>
        rcases Decidable.em (name ∈ skipFuncs) with hS | hS <;>
          simp [visitNode, recordType, recordFunc, recordValue, panics, hE, hS, hR]
  | valueSpec names =>
      cases names with
      | nil => simp [visitNode, panics]
      | cons n0 rest =>
          cases hE : isExported n0 <;>
            rcases Decidable.em (n0 ∈ expectVals) with hC | hC <;>
              simp [visitNode, recordType, recordFunc, recordValue, panics, hE, hC]
  | otherNode => simp [visitNode, recordType, recordFunc, recordValue, panics]

/-- The walk of one file, characterised: none exactly when some node of the
file panics, otherwise the three record sequences are appended in node
order. -/
lemma walkNodes_eq (nodes : List Node) : ∀ vis : MetaVisitor,
    walkNodes vis nodes =
      if nodes.any panics then none
      else some ⟨vis.pkgName, vis.f ++ nodes.filterMap recordFunc,
        vis.t ++ nodes.filterMap recordType, vis.v ++ nodes.filterMap recordValue⟩ := by
  induction nodes with
  | nil => intro vis; simp [walkNodes]
  | cons n rest ih =>
      intro vis
      rw [walkNodes, visitNode_eq]
      cases hp : panics n
      · simp only [if_false, Bool.false_eq_true]
        rw [ih]
        simp [List.any_cons, hp, filterMap_cons_toList, List.append_assoc]
      · simp [List.any_cons, hp]

/-- The two nested file loops are one walk over the concatenation. -/
lemma walkFiles_eq (files : List GoFile) : ∀ vis : MetaVisitor,
    walkFiles vis files = walkNodes vis files.flatten := by
  induction files with
  | nil => intro vis; simp [walkFiles, walkNodes]
  | cons file rest ih =>
      intro vis
      rw [walkFiles, List.flatten_cons]
      rw [show ∀ l1 l2 (v : MetaVisitor), walkNodes v (l1 ++ l2) =
            match walkNodes v l1 with
            | none => none
            | some v2 => walkNodes v2 l2 from ?_]
      · cases walkNodes vis file
        · rfl
        · exact ih _
      · intro l1
        induction l1 with
        | nil => intro l2 v; simp [walkNodes]
        | cons n l1tail ih2 =>
            intro l2 v
            simp only [List.cons_append, walkNodes]
            cases visitNode v n
            · rfl
            · exact ih2 _ _

/-- The whole per-package traversal, characterised. -/
lemma walkFiles_char (files : List GoFile) (vis : MetaVisitor) :
    walkFiles vis files =
      if files.flatten.any panics then none
      else some ⟨vis.pkgName, vis.f ++ files.flatten.filterMap recordFunc,
        vis.t ++ files.flatten.filterMap recordType,
        vis.v ++ files.flatten.filterMap recordValue⟩ := by
  rw [walkFiles_eq, walkNodes_eq]

/-- A successful traversal starting from the fresh visitor of run. -/
lemma walkFiles_some {pkg : String} {files : List GoFile} {vis : MetaVisitor}
    (h : walkFiles { pkgName := pkg } files = some vis) :
    vis = ⟨pkg, files.flatten.filterMap recordFunc,
      files.flatten.filterMap recordType, files.flatten.filterMap recordValue⟩ := by
  rw [walkFiles_char] at h
  by_cases hp : files.flatten.any panics = true
  · rw [if_pos hp] at h; cases h
  · rw [if_neg hp] at h
    simp only [Option.some.injEq] at h
    simpa using h.symm

lemma mem_filterMap_recordType {l : List Node} {x : String}
    (h : x ∈ l.filterMap recordType) : ∃ ty, Node.typeSpec x ty ∈ l := by
  obtain ⟨nd, hmem, hrec⟩ := List.mem_filterMap.1 h
  cases nd with
  | typeSpec name ty =>
      simp only [recordType, Option.ite_none_right_eq_some,
        Option.some.injEq] at hrec
      exact ⟨ty, hrec.2 ▸ hmem⟩
  | funcDecl name hasRecv => simp [recordType] at hrec
  | valueSpec names => simp [recordType] at hrec
  | otherNode => simp [recordType] at hrec

lemma mem_filterMap_recordFunc {l : List Node} {x : String}
    (h : x ∈ l.filterMap recordFunc) : ∃ r, Node.funcDecl x r ∈ l := by
  obtain ⟨nd, hmem, hrec⟩ := List.mem_filterMap.1 h
  cases nd with
  | funcDecl name hasRecv =>
      simp only [recordFunc, Option.ite_none_right_eq_some,
        Option.some.injEq] at hrec
      exact ⟨hasRecv, hrec.2 ▸ hmem⟩
  | typeSpec name ty => simp [recordFunc] at hrec
  | valueSpec names => simp [recordFunc] at hrec
  | otherNode => simp [recordFunc] at hrec

/-- Everything the value branch ever records is the one allow-listed name. -/
lemma mem_filterMap_recordValue {l : List Node} {x : String}
    (h : x ∈ l.filterMap recordValue) : x = "NoAllocationID" := by
  obtain ⟨nd, _, hrec⟩ := List.mem_filterMap.1 h
  cases nd with
  | valueSpec names =>
      cases names with
      | nil => simp [recordValue] at hrec
      | cons n0 rest =>
          simp only [recordValue, Option.ite_none_right_eq_some,
            Option.some.injEq, Bool.and_eq_true] at hrec
          obtain ⟨⟨_, hc⟩, hx⟩ := hrec
          subst hx
          have hin : n0 ∈ expectVals := by simpa using hc
          simpa [expectVals] using hin
  | typeSpec name ty => simp [recordValue] at hrec
  | funcDecl name hasRecv => simp [recordValue] at hrec
  | otherNode => simp [recordValue] at hrec

/-- Every line emitted for a collected type name is a type alias whose
package and source name are the loop's. -/
lemma typeItems_mem {pkg typ : String} {i : Item} (h : i ∈ typeItems pkg typ) :
    ∃ nn, i = .typeAlias nn pkg typ := by
  unfold typeItems at h
  split at h
  · obtain ⟨val, _, hval⟩ := List.mem_filterMap.1 h
    by_cases hp : val.1 == pkg
    · rw [if_pos hp] at hval
      exact ⟨val.2, (Option.some_inj.1 hval).symm⟩
    · rw [if_neg hp] at hval; cases hval
  · rw [List.mem_singleton] at h
    exact ⟨typ, h⟩

lemma count_varLine_group (m : MetaVisitor) (n : String) :
    (groupItems m).count (Item.varLine n m.pkgName) = m.f.count n := by
  unfold groupItems
  rw [List.count_cons_of_ne (by simp)]
  rw [List.count_append, List.count_append, List.count_append]
  have h1 : (m.t.flatMap (typeItems m.pkgName)).count (Item.varLine n m.pkgName) = 0 := by
    rw [List.count_eq_zero]
    intro hmem
    obtain ⟨typ, _, hin⟩ := List.mem_flatMap.1 hmem
    obtain ⟨nn, heq⟩ := typeItems_mem hin
    cases heq
  have h2 : (m.v.map (fun x => Item.constLine x m.pkgName)).count
      (Item.varLine n m.pkgName) = 0 := by
    rw [List.count_eq_zero]
    intro hmem
    obtain ⟨x, _, heq⟩ := List.mem_map.1 hmem
    cases heq
  have h3 : ([Item.groupEnd] : List Item).count (Item.varLine n m.pkgName) = 0 := by
    rw [List.count_eq_zero]; simp
  rw [h1, h2, h3]
  have hinj : Function.Injective (fun x => Item.varLine x m.pkgName) := by
    intro a b h
    injection h with h1 h2
  have h4 : (m.f.map (fun x => Item.varLine x m.pkgName)).count
      (Item.varLine n m.pkgName) = m.f.count n :=
    List.count_map_of_injective m.f (fun x => Item.varLine x m.pkgName) hinj n
  omega

lemma count_constLine_group (m : MetaVisitor) (n : String) :
    (groupItems m).count (Item.constLine n m.pkgName) = m.v.count n := by
  unfold groupItems
  rw [List.count_cons_of_ne (by simp)]
  rw [List.count_append, List.count_append, List.count_append]
  have h1 : (m.t.flatMap (typeItems m.pkgName)).count (Item.constLine n m.pkgName) = 0 := by
    rw [List.count_eq_zero]
    intro hmem
    obtain ⟨typ, _, hin⟩ := List.mem_flatMap.1 hmem
    obtain ⟨nn, heq⟩ := typeItems_mem hin
    cases heq
  have h2 : (m.f.map (fun x => Item.varLine x m.pkgName)).count
      (Item.constLine n m.pkgName) = 0 := by
    rw [List.count_eq_zero]
    intro hmem
    obtain ⟨x, _, heq⟩ := List.mem_map.1 hmem
    cases heq
  have h3 : ([Item.groupEnd] : List Item).count (Item.constLine n m.pkgName) = 0 := by
    rw [List.count_eq_zero]; simp
  rw [h1, h2, h3]
  have hinj : Function.Injective (fun x => Item.constLine x m.pkgName) := by
    intro a b h
    injection h with h1 h2
  have h4 : (m.v.map (fun x => Item.constLine x m.pkgName)).count
      (Item.constLine n m.pkgName) = m.v.count n :=
    List.count_map_of_injective m.v (fun x => Item.constLine x m.pkgName) hinj n
  omega

/-- A group never contains a forwarding line tagged with another package. -/
lemma not_mem_varLine_group {m : MetaVisitor} {n pkg : String}
    (hne : pkg ≠ m.pkgName) : Item.varLine n pkg ∉ groupItems m := by
  intro hmem
  unfold groupItems at hmem
  rcases List.mem_cons.1 hmem with h | h
  · cases h
  rcases List.mem_append.1 h with h | h
  · rcases List.mem_append.1 h with h | h
    · rcases List.mem_append.1 h with h | h
      · obtain ⟨typ, _, hin⟩ := List.mem_flatMap.1 h
        obtain ⟨nn, heq⟩ := typeItems_mem hin
        cases heq
      · obtain ⟨x, _, heq⟩ := List.mem_map.1 h
        cases heq
        exact hne rfl
    · obtain ⟨x, _, heq⟩ := List.mem_map.1 h
      cases heq
  · rw [List.mem_singleton] at h
    cases h

lemma not_mem_constLine_group {m : MetaVisitor} {n pkg : String}
    (hne : pkg ≠ m.pkgName) : Item.constLine n pkg ∉ groupItems m := by
  intro hmem
  unfold groupItems at hmem
  rcases List.mem_cons.1 hmem with h | h
  · cases h
  rcases List.mem_append.1 h with h | h
  · rcases List.mem_append.1 h with h | h
    · rcases List.mem_append.1 h with h | h
      · obtain ⟨typ, _, hin⟩ := List.mem_flatMap.1 h
        obtain ⟨nn, heq⟩ := typeItems_mem hin
        cases heq
      · obtain ⟨x, _, heq⟩ := List.mem_map.1 h
        cases heq
    · obtain ⟨x, _, heq⟩ := List.mem_map.1 h
      cases heq
      exact hne rfl
  · rw [List.mem_singleton] at h
    cases h

/-- Counting a forwarding line across all groups: only the groups of its
package contribute, each with the multiplicity of the name in its list. -/
lemma count_varLine_flatMap (metas : List MetaVisitor) (n pkg : String) :
    (metas.flatMap groupItems).count (Item.varLine n pkg) =
      (metas.map fun m => if m.pkgName = pkg then m.f.count n else 0).sum := by
  induction metas with
  | nil => simp
  | cons m rest ih =>
      rw [List.flatMap_cons, List.count_append, ih, List.map_cons, List.sum_cons]
      congr 1
      by_cases hp : m.pkgName = pkg
      · rw [if_pos hp]; subst hp; exact count_varLine_group m n
      · rw [if_neg hp, List.count_eq_zero]
        exact not_mem_varLine_group (fun hc => hp hc.symm)

/-- The test selecting the alias lines whose source name is n. -/
def isAliasOf (n : String) : Item → Bool
  | .typeAlias _ _ o => o == n
  | _ => false

lemma filter_typeItems_eq (pkg typ n : String) :
    (typeItems pkg typ).filter (isAliasOf n) =
      if typ = n then typeItems pkg typ else [] := by
  by_cases h : typ = n
  · subst h
    rw [if_pos rfl]
    apply List.filter_eq_self.2
    intro i hi
    obtain ⟨nn, heq⟩ := typeItems_mem hi
    subst heq
    simp [isAliasOf]
  · rw [if_neg h, List.filter_eq_nil_iff]
    intro i hi
    obtain ⟨nn, heq⟩ := typeItems_mem hi
    subst heq
    simp [isAliasOf, h]

lemma filter_flatMap_typeItems_zero {t : List String} {pkg n : String}
    (h : t.count n = 0) :
    (t.flatMap (typeItems pkg)).filter (isAliasOf n) = [] := by
  induction t with
  | nil => simp
  | cons typ rest ih =>
      rw [List.count_cons] at h
      rw [List.flatMap_cons, List.filter_append, filter_typeItems_eq]
      have hne : typ ≠ n := by
        intro hc
        subst hc
        simp at h
      rw [if_neg hne, List.nil_append]
      exact ih (by omega)

/-- A name collected exactly once renders exactly its rename-table-directed
alias lines, whatever else is in the list. -/
lemma filter_flatMap_typeItems_one {t : List String} {pkg n : String}
    (h : t.count n = 1) :
    (t.flatMap (typeItems pkg)).filter (isAliasOf n) = typeItems pkg n := by
  induction t with
  | nil => simp at h
  | cons typ rest ih =>
      rw [List.count_cons] at h
      rw [List.flatMap_cons, List.filter_append, filter_typeItems_eq]
      by_cases he : typ = n
      · subst he
        simp only [if_pos rfl]
        rw [filter_flatMap_typeItems_zero (by simpa using h)]
        simp
      · rw [if_neg he, List.nil_append]
        have hbe : (typ == n) = false := beq_eq_false_iff_ne.mpr he
        rw [hbe] at h
        simp at h
        exact ih h

/-- Only the type part of a group contributes alias lines. -/
lemma filter_group_alias (m : MetaVisitor) (n : String) :
    (groupItems m).filter (isAliasOf n) =
      (m.t.flatMap (typeItems m.pkgName)).filter (isAliasOf n) := by
  unfold groupItems
  rw [List.filter_cons_of_neg (by simp [isAliasOf])]
  rw [List.filter_append, List.filter_append, List.filter_append]
  have h2 : (m.f.map (fun x => Item.varLine x m.pkgName)).filter (isAliasOf n) = [] := by
    rw [List.filter_eq_nil_iff]
    intro i hi
    obtain ⟨x, _, heq⟩ := List.mem_map.1 hi
    subst heq
    simp [isAliasOf]
  have h3 : (m.v.map (fun x => Item.constLine x m.pkgName)).filter (isAliasOf n) = [] := by
    rw [List.filter_eq_nil_iff]
    intro i hi
    obtain ⟨x, _, heq⟩ := List.mem_map.1 hi
    subst heq
    simp [isAliasOf]
  have h4 : ([Item.groupEnd] : List Item).filter (isAliasOf n) = [] := by
    simp [isAliasOf]
  rw [h2, h3, h4]
  simp

/-- Every import line the import loop emits is an import line. -/
lemma buildImports_mem {latest : Nat} :
    ∀ {metas : List MetaVisitor} {imps : List Item},
      buildImports latest metas = some imps →
      ∀ i ∈ imps, ∃ p, i = Item.importLine p := by
  intro metas
  induction metas with
  | nil => intro imps h i hi; cases h; cases hi
  | cons m rest ih =>
      intro imps h i hi
      unfold buildImports at h
      split at h
      · cases h
      · split at h
        · cases h
        · cases h
          rcases List.mem_cons.1 hi with h2 | h2
          · exact ⟨_, h2⟩
          · exact ih (by assumption) i h2

lemma finishVisitor_pkgName (vis : MetaVisitor) :
    (finishVisitor vis).pkgName = vis.pkgName := rfl

lemma finishVisitor_f (vis : MetaVisitor) :
    (finishVisitor vis).f = sortStrings vis.f := rfl

lemma finishVisitor_t (vis : MetaVisitor) :
    (finishVisitor vis).t = sortStrings vis.t := rfl

lemma finishVisitor_v (vis : MetaVisitor) : (finishVisitor vis).v = vis.v := rfl

/-- One package step of run succeeds: location found, directory parsed, walk
completed without panic. -/
def stepOk (locate : String → Except Err String)
    (parse : String → Except Err (List GoFile)) (q : PendingPkg) : Prop :=
  ∃ loc files vis, locate q.path = .ok loc ∧ parse loc = .ok files ∧
    walkFiles { pkgName := q.name } files = some vis

/-- One package step of run fails with error e: either the location lookup
fails, or the directory parse fails. -/
def stepErr (locate : String → Except Err String)
    (parse : String → Except Err (List GoFile)) (p : PendingPkg) (e : Err) : Prop :=
  locate p.path = .error e ∨
    ∃ loc, locate p.path = .ok loc ∧ parse loc = .error e

/-- The package loop stops at the first failing package and returns its
error, whatever packages follow. -/
lemma runAux_fail {locate : String → Except Err String}
    {parse : String → Except Err (List GoFile)} :
    ∀ (pre : List PendingPkg) {p : PendingPkg} {post : List PendingPkg}
      {e : Err} (acc : List MetaVisitor),
      (∀ q ∈ pre, stepOk locate parse q) →
      stepErr locate parse p e →
      runAux locate parse (pre ++ p :: post) acc = some (.error e) := by
  intro pre
  induction pre with
  | nil =>
      intro p post e acc _ herr
      rcases herr with h | ⟨loc, h1, h2⟩
      · simp [runAux, h]
      · simp [runAux, h1, h2]
  | cons q pre ih =>
      intro p post e acc hok herr
      obtain ⟨loc, files, vis, h1, h2, h3⟩ := hok q (List.mem_cons_self q pre)
      rw [List.cons_append]
      unfold runAux
      simp only [h1, h2, h3]
      exact ih _ (fun q2 hq2 => hok q2 (List.mem_cons_of_mem _ hq2)) herr

/-- A successful loop processes exactly the given packages, in order. -/
lemma runAux_ok_names {locate : String → Except Err String}
    {parse : String → Except Err (List GoFile)} :
    ∀ {pkgs : List PendingPkg} {acc : List MetaVisitor} {metas : List MetaVisitor},
      runAux locate parse pkgs acc = some (.ok metas) →
      metas.map MetaVisitor.pkgName =
        acc.map MetaVisitor.pkgName ++ pkgs.map PendingPkg.name := by
  intro pkgs
  induction pkgs with
  | nil =>
      intro acc metas h
      simp only [runAux, Option.some.injEq, Except.ok.injEq] at h
      subst h
      simp
  | cons p rest ih =>
      intro acc metas h
      unfold runAux at h
      cases hl : locate p.path with
      | error e => simp only [hl] at h; simp at h
      | ok loc =>
          simp only [hl] at h
          cases hp : parse loc with
          | error e => simp only [hp] at h; simp at h
          | ok files =>
              simp only [hp] at h
              cases hw : walkFiles { pkgName := p.name } files with
              | none => simp only [hw] at h; simp at h
              | some vis =>
                  simp only [hw] at h
                  rw [ih h]
                  have hname : (finishVisitor vis).pkgName = p.name := by
                    rw [finishVisitor_pkgName, walkFiles_some hw]
                  simp [hname]

/-- The invariant a finished visitor of run satisfies: sorted type and
function lists, and a value list whose entries are all the single
allow-listed name. -/
def GoodMeta (m : MetaVisitor) : Prop :=
  m.t.Sorted goLeP ∧ m.f.Sorted goLeP ∧ ∀ x ∈ m.v, x = "NoAllocationID"

lemma runAux_good {locate : String → Except Err String}
    {parse : String → Except Err (List GoFile)} :
    ∀ {pkgs : List PendingPkg} {acc metas : List MetaVisitor},
      runAux locate parse pkgs acc = some (.ok metas) →
      (∀ m ∈ acc, GoodMeta m) → ∀ m ∈ metas, GoodMeta m := by
  intro pkgs
  induction pkgs with
  | nil =>
      intro acc metas h hacc
      simp only [runAux, Option.some.injEq, Except.ok.injEq] at h
      subst h
      exact hacc
  | cons p rest ih =>
      intro acc metas h hacc
      unfold runAux at h
      cases hl : locate p.path with
      | error e => simp only [hl] at h; simp at h
      | ok loc =>
          simp only [hl] at h
          cases hp : parse loc with
          | error e => simp only [hp] at h; simp at h
          | ok files =>
              simp only [hp] at h
              cases hw : walkFiles { pkgName := p.name } files with
              | none => simp only [hw] at h; simp at h
              | some vis =>
                  simp only [hw] at h
                  refine ih h ?_
                  intro m hm
                  rcases List.mem_append.1 hm with hm | hm
                  · exact hacc m hm
                  · rw [List.mem_singleton] at hm
                    subst hm
                    refine ⟨sorted_sortStrings _, sorted_sortStrings _, ?_⟩
                    rw [finishVisitor_v, walkFiles_some hw]
                    intro x hx
                    exact mem_filterMap_recordValue hx

/-- How two parse results of the same directory may differ between two runs:
same error, or the same files delivered in a different order. -/
def ParseRel : Except Err (List GoFile) → Except Err (List GoFile) → Prop
  | .error e1, .error e2 => e1 = e2
  | .ok fs1, .ok fs2 => fs1.Perm fs2
  | _, _ => False

lemma perm_any {α : Type} (p : α → Bool) {l1 l2 : List α} (h : l1.Perm l2) :
    l1.any p = l2.any p := by
  cases hx : l2.any p
  · rw [List.any_eq_false] at hx ⊢
    intro x hxm
    exact hx x (h.mem_iff.mp hxm)
  · rw [List.any_eq_true] at hx ⊢
    obtain ⟨x, hm, hp⟩ := hx
    exact ⟨x, h.mem_iff.mpr hm, hp⟩

lemma const_perm_eq {l1 l2 : List String} {c : String} (h : l1.Perm l2)
    (hall : ∀ x ∈ l1, x = c) : l1 = l2 := by
  have h1 : l1 = List.replicate l1.length c := List.eq_replicate_iff.mpr ⟨rfl, hall⟩
  have h2 : l2 = List.replicate l2.length c :=
    List.eq_replicate_iff.mpr ⟨rfl, fun x hx => hall x (h.mem_iff.mpr hx)⟩
  rw [h1, h2, h.length_eq]

/-- Reordering the parsed files of one directory does not change the
finished visitor: the sorted lists absorb the permutation and the value
list, though unsorted, is constant. -/
lemma walkFiles_perm_finish {files1 files2 : List GoFile}
    (hperm : files1.Perm files2) (pkg : String) :
    (walkFiles { pkgName := pkg } files1).map finishVisitor =
      (walkFiles { pkgName := pkg } files2).map finishVisitor := by
  have hflat : files1.flatten.Perm files2.flatten := hperm.flatten
  rw [walkFiles_char, walkFiles_char, perm_any panics hflat]
  by_cases hb : files2.flatten.any panics = true
  · rw [if_pos hb, if_pos hb]
  · rw [if_neg hb, if_neg hb]
    show some (MetaVisitor.mk pkg
        (sortStrings (files1.flatten.filterMap recordFunc))
        (sortStrings (files1.flatten.filterMap recordType))
        (files1.flatten.filterMap recordValue)) =
      some (MetaVisitor.mk pkg
        (sortStrings (files2.flatten.filterMap recordFunc))
        (sortStrings (files2.flatten.filterMap recordType))
        (files2.flatten.filterMap recordValue))
    rw [sortStrings_perm_eq (hflat.filterMap recordFunc),
      sortStrings_perm_eq (hflat.filterMap recordType),
      const_perm_eq (hflat.filterMap recordValue)
        (fun x hx => mem_filterMap_recordValue hx)]

/-- The whole package loop is insensitive to the order in which the parser
delivers the files of each directory. -/
lemma runAux_congr {locate : String → Except Err String}
    {parse1 parse2 : String → Except Err (List GoFile)}
    (hrel : ∀ loc, ParseRel (parse1 loc) (parse2 loc)) :
    ∀ (pkgs : List PendingPkg) (acc : List MetaVisitor),
      runAux locate parse1 pkgs acc = runAux locate parse2 pkgs acc := by
  intro pkgs
  induction pkgs with
  | nil => intro acc; rfl
  | cons p rest ih =>
      intro acc
      unfold runAux
      cases hl : locate p.path with
      | error e => simp only [hl]
      | ok loc =>
          simp only [hl]
          have hr := hrel loc
          cases hp1 : parse1 loc with
          | error e =>
              cases hp2 : parse2 loc with
              | error e2 =>
                  rw [hp1, hp2] at hr
                  simp only [ParseRel] at hr
                  subst hr
                  simp only [hp1, hp2]
              | ok fs2 =>
                  rw [hp1, hp2] at hr
                  simp only [ParseRel] at hr
          | ok files1 =>
              cases hp2 : parse2 loc with
              | error e2 =>
                  rw [hp1, hp2] at hr
                  simp only [ParseRel] at hr
              | ok files2 =>
                  rw [hp1, hp2] at hr
                  simp only [ParseRel] at hr
                  simp only [hp1, hp2]
                  have hmap := walkFiles_perm_finish hr p.name
                  cases hw1 : walkFiles { pkgName := p.name } files1 with
                  | none =>
                      cases hw2 : walkFiles { pkgName := p.name } files2 with
                      | none => simp only [hw1, hw2]
                      | some v2 => rw [hw1, hw2] at hmap; simp at hmap
                  | some v1 =>
                      cases hw2 : walkFiles { pkgName := p.name } files2 with
                      | none => rw [hw1, hw2] at hmap; simp at hmap
                      | some v2 =>
                          rw [hw1, hw2] at hmap
                          have hfin : finishVisitor v1 = finishVisitor v2 := by
                            simpa using hmap
                          simp only [hw1, hw2, hfin]
                          exact ih _

/-- C2: for a fixed package list and fixed source trees, two runs of the
generator produce identical output even when the parser enumerates the
directory entries and file maps in a different order, and every per-package
name list handed to the renderer is sorted in the case-sensitive
lexicographic string order (the value list trivially so, because the
allow-list admits exactly one name). -/
theorem c2_deterministic_output :
    ∀ (latest : Nat) (locate : String → Except Err String)
      (parse1 parse2 : String → Except Err (List GoFile))
      (fmtFile : String → Except Err String) (dst : String),
      (∀ loc, ParseRel (parse1 loc) (parse2 loc)) →
      run latest locate parse1 fmtFile dst = run latest locate parse2 fmtFile dst ∧
      (∀ metas, runMetas latest locate parse1 = some (.ok metas) →
        ∀ m ∈ metas, m.t.Sorted goLeP ∧ m.f.Sorted goLeP ∧ m.v.Sorted goLeP) := by
  intro latest locate parse1 parse2 fmtFile dst hrel
  constructor
  · unfold run runMetas
    rw [runAux_congr hrel]
  · intro metas h m hm
    unfold runMetas at h
    obtain ⟨ht, hf, hv⟩ := runAux_good h (by simp) m hm
    refine ⟨ht, hf, ?_⟩
    have hrep : m.v = List.replicate m.v.length "NoAllocationID" :=
      List.eq_replicate_iff.mpr ⟨rfl, hv⟩
    rw [hrep]
    exact List.pairwise_replicate.mpr (Or.inr (goLeP_refl _))

theorem c2_witness :
    run 9 (fun _ => Except.ok "") (fun _ => Except.ok []) (fun s => Except.ok s) "dst" =
      run 9 (fun _ => Except.ok "") (fun _ => Except.ok []) (fun s => Except.ok s) "dst" ∧
    (∀ metas, runMetas 9 (fun _ => Except.ok "") (fun _ => Except.ok []) = some (.ok metas) →
      ∀ m ∈ metas, m.t.Sorted goLeP ∧ m.f.Sorted goLeP ∧ m.v.Sorted goLeP) :=
  c2_deterministic_output 9 (fun _ => Except.ok "") (fun _ => Except.ok [])
    (fun _ => Except.ok []) (fun s => Except.ok s) "dst" (fun _ => List.Perm.nil)

/-- C5: when resolving or parsing any scanned package fails, run returns
that first error and performs no write at all: the loop stops at the failing
package and writeFile is never reached. -/
theorem c5_parse_failure_no_write :
    ∀ (latest : Nat) (locate : String → Except Err String)
      (parse : String → Except Err (List GoFile))
      (fmtFile : String → Except Err String) (dst : String)
      (pre : List PendingPkg) (p : PendingPkg) (post : List PendingPkg) (e : Err),
      toList (pendingPkgs latest) = pre ++ p :: post →
      (∀ q ∈ pre, stepOk locate parse q) →
      stepErr locate parse p e →
      run latest locate parse fmtFile dst = some (.error e, []) := by
  intro latest locate parse fmtFile dst pre p post e hsplit hok herr
  unfold run runMetas
  rw [hsplit, runAux_fail pre [] hok herr]

theorem c5_witness :
    run 0 (fun _ => Except.error "cannot find package")
      (fun _ => Except.ok []) (fun s => Except.ok s) "dst" =
      some (Except.error "cannot find package", []) :=
  c5_parse_failure_no_write 0 (fun _ => Except.error "cannot find package")
    (fun _ => Except.ok []) (fun s => Except.ok s) "dst" []
    ⟨"market", pkgPath 0 "market", 0⟩
    [⟨"miner", pkgPath 0 "miner", 0⟩, ⟨"paych", pkgPath 8 "paych", 8⟩,
     ⟨"verifreg", pkgPath 0 "verifreg", 0⟩]
    "cannot find package" (by decide)
    (fun q hq => absurd hq (List.not_mem_nil q)) (Or.inl rfl)

/-- C6: writeFile only writes the destination after the formatter accepts
the assembled buffer; a formatting error is returned as is with no write
performed. -/
theorem c6_format_failure_no_write :
    ∀ (latest : Nat) (fmtFile : String → Except Err String) (dst : String)
      (metas : List MetaVisitor) (items : List Item),
      buildItems latest metas = some items →
      (∀ e, fmtFile (renderItems items) = .error e →
        writeFile latest fmtFile dst metas = some (.error e, [])) ∧
      (∀ r ops, writeFile latest fmtFile dst metas = some (r, ops) → ops ≠ [] →
        ∃ out, fmtFile (renderItems items) = .ok out ∧ r = .ok () ∧
          ops = [(dst, out)]) := by
  intro latest fmtFile dst metas items hb
  constructor
  · intro e he
    unfold writeFile
    simp only [hb, he]
  · intro r ops hw hne
    unfold writeFile at hw
    simp only [hb] at hw
    cases hf : fmtFile (renderItems items) with
    | error e =>
        simp only [hf, Option.some.injEq, Prod.mk.injEq] at hw
        exact absurd hw.2.symm hne
    | ok out =>
        simp only [hf, Option.some.injEq, Prod.mk.injEq] at hw
        exact ⟨out, rfl, hw.1.symm, hw.2.symm⟩

theorem c6_witness :
    (∀ e, (fun _ : String => (Except.error "format failed" : Except Err String))
        (renderItems [Item.header, Item.importOpen, Item.importClose]) = .error e →
      writeFile 0 (fun _ => Except.error "format failed") "dst" [] =
        some (.error e, [])) ∧
    (∀ r ops, writeFile 0 (fun _ => Except.error "format failed") "dst" [] =
        some (r, ops) → ops ≠ [] →
      ∃ out, (fun _ : String => (Except.error "format failed" : Except Err String))
          (renderItems [Item.header, Item.importOpen, Item.importClose]) = .ok out ∧
        r = .ok () ∧ ops = [("dst", out)]) :=
  c6_format_failure_no_write 0 (fun _ => Except.error "format failed") "dst" [] _ rfl

/-- The sorted package list run iterates: the four scanned packages in name
order, with paych pinned to version 8. -/
lemma toList_pendingPkgs (latest : Nat) :
    toList (pendingPkgs latest) =
      [⟨"market", pkgPath latest "market", latest⟩,
       ⟨"miner", pkgPath latest "miner", latest⟩,
       ⟨"paych", pkgPath 8 "paych", 8⟩,
       ⟨"verifreg", pkgPath latest "verifreg", latest⟩] := rfl

/-- The four import lines of the output, one per scanned package. -/
def importsFor (latest : Nat) : List Item :=
  [Item.importLine (pkgPath latest "market"),
   Item.importLine (pkgPath latest "miner"),
   Item.importLine (pkgPath 8 "paych"),
   Item.importLine (pkgPath latest "verifreg")]

lemma buildImports_concrete (latest : Nat) (metas : List MetaVisitor)
    (hnames : metas.map MetaVisitor.pkgName = ["market", "miner", "paych", "verifreg"]) :
    buildImports latest metas = some (importsFor latest) := by
  cases metas with
  | nil => simp at hnames
  | cons m1 rest1 =>
  cases rest1 with
  | nil => simp at hnames
  | cons m2 rest2 =>
  cases rest2 with
  | nil => simp at hnames
  | cons m3 rest3 =>
  cases rest3 with
  | nil => simp at hnames
  | cons m4 rest4 =>
  cases rest4 with
  | cons m5 rest5 => simp at hnames
  | nil =>
      simp only [List.map_cons, List.map_nil, List.cons.injEq, and_true] at hnames
      obtain ⟨h1, h2, h3, h4⟩ := hnames
      have l1 : lookupPkg latest "market" =
        some ⟨"market", pkgPath latest "market", latest⟩ := rfl
      have l2 : lookupPkg latest "miner" =
        some ⟨"miner", pkgPath latest "miner", latest⟩ := rfl
      have l3 : lookupPkg latest "paych" = some ⟨"paych", pkgPath 8 "paych", 8⟩ := rfl
      have l4 : lookupPkg latest "verifreg" =
        some ⟨"verifreg", pkgPath latest "verifreg", latest⟩ := rfl
      simp only [buildImports, h1, h2, h3, h4, l1, l2, l3, l4, importsFor]

/-- C7: a successful run writes exactly one file, whose bytes are the
formatter image of the assembled buffer; that buffer is the generated-file
header, then one import block holding exactly one import line per scanned
package, then one declaration group per scanned package, with the groups in
package-name order market, miner, paych, verifreg. -/
theorem c7_output_layout :
    ∀ (latest : Nat) (locate : String → Except Err String)
      (parse : String → Except Err (List GoFile))
      (fmtFile : String → Except Err String) (dst : String) (ops : List WriteOp),
      run latest locate parse fmtFile dst = some (.ok (), ops) →
      ∃ metas items out,
        runMetas latest locate parse = some (.ok metas) ∧
        metas.map MetaVisitor.pkgName = ["market", "miner", "paych", "verifreg"] ∧
        buildImports latest metas = some (importsFor latest) ∧
        buildItems latest metas = some items ∧
        items = Item.header :: Item.importOpen :: importsFor latest ++
          [Item.importClose] ++ metas.flatMap groupItems ∧
        fmtFile (renderItems items) = .ok out ∧
        ops = [(dst, out)] := by
  intro latest locate parse fmtFile dst ops h
  unfold run at h
  cases hrm : runMetas latest locate parse with
  | none => rw [hrm] at h; simp at h
  | some res =>
      cases res with
      | error e => simp only [hrm] at h; simp at h
      | ok metas =>
          simp only [hrm] at h
          have hnames : metas.map MetaVisitor.pkgName =
              ["market", "miner", "paych", "verifreg"] := by
            unfold runMetas at hrm
            have hx := runAux_ok_names hrm
            rw [toList_pendingPkgs] at hx
            simpa using hx
          have himps := buildImports_concrete latest metas hnames
          unfold writeFile at h
          cases hbi : buildItems latest metas with
          | none => simp only [hbi] at h; simp at h
          | some items =>
              simp only [hbi] at h
              cases hf : fmtFile (renderItems items) with
              | error e => simp only [hf] at h; simp at h
              | ok out =>
                  simp only [hf] at h
                  have hops : ops = [(dst, out)] := by
                    injection h with h1
                    injection h1 with h2 h3
                    exact h3.symm
                  refine ⟨metas, items, out, rfl, hnames, himps, hbi, ?_, hf, hops⟩
                  unfold buildItems at hbi
                  simp only [himps, Option.some.injEq] at hbi
                  exact hbi.symm

theorem c7_witness :
    ∃ ops, run 0 (fun _ => Except.ok "") (fun _ => Except.ok [])
        (fun s => Except.ok s) "dst" = some (Except.ok (), ops) ∧
      ∃ metas items out,
        runMetas 0 (fun _ => Except.ok "") (fun _ => Except.ok []) =
          some (.ok metas) ∧
        metas.map MetaVisitor.pkgName = ["market", "miner", "paych", "verifreg"] ∧
        buildImports 0 metas = some (importsFor 0) ∧
        buildItems 0 metas = some items ∧
        items = Item.header :: Item.importOpen :: importsFor 0 ++
          [Item.importClose] ++ metas.flatMap groupItems ∧
        (fun s => (Except.ok s : Except Err String)) (renderItems items) = .ok out ∧
        ops = [("dst", out)] :=
  ⟨_, rfl, c7_output_layout 0 (fun _ => Except.ok "") (fun _ => Except.ok [])
    (fun s => Except.ok s) "dst" _ rfl⟩

/-- C1 (amended): for a type declaration recorded exactly once under name n,
the alias lines for n in the package group are exactly the ones the rename
table directs: the single bare alias when n does not key the table, and one
renamed line per entry whose package matches the group when it does, with no
bare line; when n keys the table but no entry names the package, no alias
line for n is emitted at all. -/
theorem c1_rename_alias_lines :
    ∀ (pkg : String) (files : List GoFile) (vis : MetaVisitor) (n : String)
      (ty : GoType) (ns1 ns2 : List Node),
      walkFiles { pkgName := pkg } files = some vis →
      files.flatten = ns1 ++ Node.typeSpec n ty :: ns2 →
      isExported n = true →
      (ty = GoType.structType ∨ ty = GoType.identType) →
      skips.contains n = false →
      (∀ ty2, Node.typeSpec n ty2 ∉ ns1) →
      (∀ ty2, Node.typeSpec n ty2 ∉ ns2) →
      (groupItems (finishVisitor vis)).filter (isAliasOf n) = typeItems pkg n := by
  intro pkg files vis n ty ns1 ns2 hw hflat hE hty hS h1 h2
  have hvis := walkFiles_some hw
  subst hvis
  rw [filter_group_alias]
  have hcount : (files.flatten.filterMap recordType).count n = 1 := by
    rw [hflat, List.filterMap_append, filterMap_cons_toList]
    rw [List.count_append, List.count_append]
    have hz1 : (ns1.filterMap recordType).count n = 0 := by
      rw [List.count_eq_zero]
      intro hmem
      obtain ⟨ty2, hm⟩ := mem_filterMap_recordType hmem
      exact h1 ty2 hm
    have hz2 : (ns2.filterMap recordType).count n = 0 := by
      rw [List.count_eq_zero]
      intro hmem
      obtain ⟨ty2, hm⟩ := mem_filterMap_recordType hmem
      exact h2 ty2 hm
    have hmid : ((recordType (Node.typeSpec n ty)).toList).count n = 1 := by
      have hrec : recordType (Node.typeSpec n ty) = some n := by
        have htyb : (ty == GoType.structType || ty == GoType.identType) = true := by
          rcases hty with h | h <;> subst h <;> rfl
        have hS2 : n ∉ skips := by simpa using hS
        simp [recordType, hE, hS2, htyb]
      rw [hrec]
      simp
    rw [hz1, hz2, hmid]
  exact filter_flatMap_typeItems_one (by rw [finishVisitor_t, sortStrings_count]; simpa using hcount)

theorem c1_counterexample :
    isExported "WithdrawBalanceParams" = true ∧
    skips.contains "WithdrawBalanceParams" = false ∧
    (renameTable.lookup "WithdrawBalanceParams").getD [] =
      [("market", "MarketWithdrawBalanceParams"),
       ("miner", "MinerWithdrawBalanceParams")] ∧
    walkFiles { pkgName := "paych" }
        [[Node.typeSpec "WithdrawBalanceParams" GoType.structType]] =
      some { pkgName := "paych", f := [], t := ["WithdrawBalanceParams"], v := [] } ∧
    (groupItems (finishVisitor
        { pkgName := "paych", f := [], t := ["WithdrawBalanceParams"], v := [] })).filter
      (isAliasOf "WithdrawBalanceParams") = [] := by
  decide

theorem c1_witness :
    (groupItems (finishVisitor
        { pkgName := "market", f := [], t := ["WithdrawBalanceParams"], v := [] })).filter
      (isAliasOf "WithdrawBalanceParams") =
      typeItems "market" "WithdrawBalanceParams" :=
  c1_rename_alias_lines "market"
    [[Node.typeSpec "WithdrawBalanceParams" GoType.structType]]
    { pkgName := "market", f := [], t := ["WithdrawBalanceParams"], v := [] }
    "WithdrawBalanceParams" GoType.structType [] [] (by decide) rfl (by decide)
    (Or.inl rfl) (by decide)
    (fun ty2 h => absurd h (List.not_mem_nil _))
    (fun ty2 h => absurd h (List.not_mem_nil _))

/-- C3 (amended): the value list records exactly the first names of the
value specs whose first name is exported and allow-listed, in traversal
order; the group renders one constant binding per recorded occurrence, and a
name outside the allow-list never gets a binding.  An allow-listed exported
name occurring only in a later position of a spec is therefore dropped. -/
theorem c3_value_allowlist :
    ∀ (pkg : String) (files : List GoFile) (vis : MetaVisitor),
      walkFiles { pkgName := pkg } files = some vis →
      vis.v = files.flatten.filterMap recordValue ∧
      (∀ n, (groupItems (finishVisitor vis)).count (Item.constLine n pkg) =
        (files.flatten.filterMap recordValue).count n) ∧
      (∀ n, expectVals.contains n = false →
        (groupItems (finishVisitor vis)).count (Item.constLine n pkg) = 0) := by
  intro pkg files vis hw
  have hvis := walkFiles_some hw
  subst hvis
  have hcount : ∀ n,
      (groupItems (finishVisitor ⟨pkg, files.flatten.filterMap recordFunc,
        files.flatten.filterMap recordType, files.flatten.filterMap recordValue⟩)).count
        (Item.constLine n pkg) = (files.flatten.filterMap recordValue).count n := by
    intro n
    exact count_constLine_group _ n
  refine ⟨by simp, hcount, ?_⟩
  intro n hn
  rw [hcount n, List.count_eq_zero]
  intro hmem
  have hna := mem_filterMap_recordValue hmem
  subst hna
  simp [expectVals] at hn

theorem c3_counterexample :
    isExported "NoAllocationID" = true ∧
    expectVals.contains "NoAllocationID" = true ∧
    walkFiles { pkgName := "market" }
        [[Node.valueSpec ["ZZZ", "NoAllocationID"]]] =
      some { pkgName := "market", f := [], t := [], v := [] } ∧
    (groupItems (finishVisitor { pkgName := "market", f := [], t := [], v := [] })).count
      (Item.constLine "NoAllocationID" "market") = 0 := by
  decide

theorem c3_witness :
    ({ pkgName := "market", f := [], t := [], v := ["NoAllocationID"] } : MetaVisitor).v =
      ([[Node.valueSpec ["NoAllocationID"]]] : List GoFile).flatten.filterMap recordValue ∧
    (∀ n, (groupItems (finishVisitor
        ({ pkgName := "market", f := [], t := [], v := ["NoAllocationID"] } : MetaVisitor))).count
      (Item.constLine n "market") =
      (([[Node.valueSpec ["NoAllocationID"]]] : List GoFile).flatten.filterMap recordValue).count n) ∧
    (∀ n, expectVals.contains n = false →
      (groupItems (finishVisitor
        ({ pkgName := "market", f := [], t := [], v := ["NoAllocationID"] } : MetaVisitor))).count
        (Item.constLine n "market") = 0) :=
  c3_value_allowlist "market" [[Node.valueSpec ["NoAllocationID"]]]
    { pkgName := "market", f := [], t := [], v := ["NoAllocationID"] } (by decide)

/-- C4: for a package whose walked nodes contain exactly one top-level
function declaration named n, the full assembled output contains the
forwarding line var n = pkg.n exactly once when the function is exported,
receiver-less and not in the function skip set, and not at all otherwise;
the groups of the other packages never contribute that line. -/
theorem c4_func_forwarding :
    ∀ (latest : Nat) (metas pre post : List MetaVisitor) (pkg : String)
      (files : List GoFile) (vis : MetaVisitor) (n : String) (r : Bool)
      (ns1 ns2 : List Node) (items : List Item),
      walkFiles { pkgName := pkg } files = some vis →
      files.flatten = ns1 ++ Node.funcDecl n r :: ns2 →
      (∀ r2, Node.funcDecl n r2 ∉ ns1) →
      (∀ r2, Node.funcDecl n r2 ∉ ns2) →
      metas = pre ++ finishVisitor vis :: post →
      (∀ m ∈ pre, m.pkgName ≠ pkg) →
      (∀ m ∈ post, m.pkgName ≠ pkg) →
      buildItems latest metas = some items →
      items.count (Item.varLine n pkg) =
        if isExported n && !r && !(skipFuncs.contains n) then 1 else 0 := by
  intro latest metas pre post pkg files vis n r ns1 ns2 items hw hflat h1 h2 hm hpre hpost hb
  have hvis := walkFiles_some hw
  unfold buildItems at hb
  cases hbi : buildImports latest metas with
  | none => rw [hbi] at hb; cases hb
  | some imps =>
      rw [hbi] at hb
      have hitems : items = Item.header :: Item.importOpen :: imps ++
          [Item.importClose] ++ metas.flatMap groupItems := by
        cases hb
        rfl
      subst hitems
      have hne1 : Item.varLine n pkg ≠ Item.header := by simp
      have hne2 : Item.varLine n pkg ≠ Item.importOpen := by simp
      have hz1 : imps.count (Item.varLine n pkg) = 0 := by
        rw [List.count_eq_zero]
        intro hmem
        obtain ⟨p2, heq⟩ := buildImports_mem hbi _ hmem
        cases heq
      have hz0 : (Item.header :: Item.importOpen :: imps).count (Item.varLine n pkg) = 0 := by
        rw [List.count_cons_of_ne hne1, List.count_cons_of_ne hne2]
        exact hz1
      have hz2 : ([Item.importClose] : List Item).count (Item.varLine n pkg) = 0 := by
        rw [List.count_eq_zero]
        simp
      rw [List.count_append, List.count_append, hz0, hz2, count_varLine_flatMap, hm]
      rw [List.map_append, List.map_cons, List.sum_append, List.sum_cons]
      have hz3 : (pre.map fun m => if m.pkgName = pkg then m.f.count n else 0).sum = 0 := by
        apply List.sum_eq_zero
        intro x hx
        obtain ⟨m2, hm2, hval⟩ := List.mem_map.1 hx
        rw [if_neg (hpre m2 hm2)] at hval
        exact hval.symm
      have hz4 : (post.map fun m => if m.pkgName = pkg then m.f.count n else 0).sum = 0 := by
        apply List.sum_eq_zero
        intro x hx
        obtain ⟨m2, hm2, hval⟩ := List.mem_map.1 hx
        rw [if_neg (hpost m2 hm2)] at hval
        exact hval.symm
      have hpkgn : (finishVisitor vis).pkgName = pkg := by
        rw [finishVisitor_pkgName, hvis]
      have hmid : (finishVisitor vis).f.count n =
          if isExported n && !r && !(skipFuncs.contains n) then 1 else 0 := by
        rw [finishVisitor_f, sortStrings_count, hvis]
        show (files.flatten.filterMap recordFunc).count n = _
        rw [hflat, List.filterMap_append, filterMap_cons_toList]
        rw [List.count_append, List.count_append]
        have hq1 : (ns1.filterMap recordFunc).count n = 0 := by
          rw [List.count_eq_zero]
          intro hmem
          obtain ⟨r2, hmm⟩ := mem_filterMap_recordFunc hmem
          exact h1 r2 hmm
        have hq2 : (ns2.filterMap recordFunc).count n = 0 := by
          rw [List.count_eq_zero]
          intro hmem
          obtain ⟨r2, hmm⟩ := mem_filterMap_recordFunc hmem
          exact h2 r2 hmm
        have hq3 : ((recordFunc (Node.funcDecl n r)).toList).count n =
            if isExported n && !r && !(skipFuncs.contains n) then 1 else 0 := by
          cases hcond : (isExported n && !r && !(skipFuncs.contains n)) <;>
            simp only [recordFunc] <;> rw [hcond] <;> simp
        rw [hq1, hq2, hq3]
        omega
      rw [hz3, hz4, if_pos hpkgn, hmid]
      omega

theorem c4_witness :
    ([Item.header, Item.importOpen, Item.importLine (pkgPath 0 "market"),
      Item.importClose, Item.separator "market", Item.varLine "Bar" "market",
      Item.groupEnd] : List Item).count (Item.varLine "Bar" "market") =
      if isExported "Bar" && !false && !(skipFuncs.contains "Bar") then 1 else 0 :=
  c4_func_forwarding 0
    [finishVisitor { pkgName := "market", f := ["Bar"], t := [], v := [] }] [] []
    "market" [[Node.funcDecl "Bar" false]]
    { pkgName := "market", f := ["Bar"], t := [], v := [] } "Bar" false [] []
    [Item.header, Item.importOpen, Item.importLine (pkgPath 0 "market"),
     Item.importClose, Item.separator "market", Item.varLine "Bar" "market",
     Item.groupEnd]
    (by decide) rfl
    (fun r2 h => absurd h (List.not_mem_nil _))
    (fun r2 h => absurd h (List.not_mem_nil _))
    rfl
    (fun m hm2 => absurd hm2 (List.not_mem_nil _))
    (fun m hm2 => absurd hm2 (List.not_mem_nil _))
    (by decide)

/-- C8 (amended): after a package traversal the three lists are exactly the
sequences of recorded names in traversal order, one entry per recorded
declaration; they are duplicate-free whenever no name is recorded by two
distinct visited declarations, which legal input can violate, for example
through a function-local type declaration shadowing a top-level one. -/
theorem c8_lists_are_recorded_names :
    ∀ (pkg : String) (files : List GoFile) (vis : MetaVisitor),
      walkFiles { pkgName := pkg } files = some vis →
      vis.f = files.flatten.filterMap recordFunc ∧
      vis.t = files.flatten.filterMap recordType ∧
      vis.v = files.flatten.filterMap recordValue ∧
      ((files.flatten.filterMap recordFunc).Nodup →
        (files.flatten.filterMap recordType).Nodup →
        (files.flatten.filterMap recordValue).Nodup →
        vis.f.Nodup ∧ vis.t.Nodup ∧ vis.v.Nodup) := by
  intro pkg files vis hw
  have hvis := walkFiles_some hw
  subst hvis
  exact ⟨rfl, rfl, rfl, fun hf ht hv => ⟨hf, ht, hv⟩⟩

theorem c8_counterexample :
    walkFiles { pkgName := "market" }
        [[Node.typeSpec "Foo" GoType.structType,
          Node.typeSpec "Foo" GoType.structType]] =
      some { pkgName := "market", f := [], t := ["Foo", "Foo"], v := [] } ∧
    ¬ (["Foo", "Foo"] : List String).Nodup := by
  decide

theorem c8_witness :
    ({ pkgName := "market", f := [], t := ["Foo"], v := [] } : MetaVisitor).f =
      ([[Node.typeSpec "Foo" GoType.structType]] : List GoFile).flatten.filterMap recordFunc ∧
    ({ pkgName := "market", f := [], t := ["Foo"], v := [] } : MetaVisitor).t =
      ([[Node.typeSpec "Foo" GoType.structType]] : List GoFile).flatten.filterMap recordType ∧
    ({ pkgName := "market", f := [], t := ["Foo"], v := [] } : MetaVisitor).v =
      ([[Node.typeSpec "Foo" GoType.structType]] : List GoFile).flatten.filterMap recordValue ∧
    ((([[Node.typeSpec "Foo" GoType.structType]] : List GoFile).flatten.filterMap recordFunc).Nodup →
      (([[Node.typeSpec "Foo" GoType.structType]] : List GoFile).flatten.filterMap recordType).Nodup →
      (([[Node.typeSpec "Foo" GoType.structType]] : List GoFile).flatten.filterMap recordValue).Nodup →
      ({ pkgName := "market", f := [], t := ["Foo"], v := [] } : MetaVisitor).f.Nodup ∧
      ({ pkgName := "market", f := [], t := ["Foo"], v := [] } : MetaVisitor).t.Nodup ∧
      ({ pkgName := "market", f := [], t := ["Foo"], v := [] } : MetaVisitor).v.Nodup) :=
  c8_lists_are_recorded_names "market" [[Node.typeSpec "Foo" GoType.structType]]
    { pkgName := "market", f := [], t := ["Foo"], v := [] } (by decide)

/-- C10: Visit is not total: on a value spec with an empty name list the
source indexes vt.Names[0] before its len(vt.Names) == 0 guard can fire, an
out-of-bounds access, modelled as none.  The dead guard in the source shows
the check was intended to protect the access. -/
theorem c10_visit_empty_value_spec_panics :
    visitNode { pkgName := "market" } (Node.valueSpec []) = none := by
  decide

end StateTypeGen

namespace GatewayProxy

/-!
The generated proxy structs of venus-shared/api/gateway/v1/proxy_gen.go.
Every Go type in a method signature is abstracted to a type parameter, since
the forwarding pattern is parametric in all of them; a pointer-receiver
method is embedded as a function that returns the result together with the
post-state of the receiver, so that "no other effect on the struct" is an
equality of states. -/

structure IProofClientInternal (Ctx Addr SIs Rand Epoch NV Rcp Rlcm Rlmc : Type) where
  ComputeProof : Ctx → Addr → SIs → Rand → Epoch → NV → Rcp
  ListConnectedMiners : Ctx → Rlcm
  ListMinerConnection : Ctx → Addr → Rlmc

structure IProofClientStruct (Ctx Addr SIs Rand Epoch NV Rcp Rlcm Rlmc : Type) where
  Internal : IProofClientInternal Ctx Addr SIs Rand Epoch NV Rcp Rlcm Rlmc

def IProofClientStruct.ComputeProof {Ctx Addr SIs Rand Epoch NV Rcp Rlcm Rlmc : Type}
    (s : IProofClientStruct Ctx Addr SIs Rand Epoch NV Rcp Rlcm Rlmc)
    (p0 : Ctx) (p1 : Addr) (p2 : SIs) (p3 : Rand) (p4 : Epoch) (p5 : NV) :
    Rcp × IProofClientStruct Ctx Addr SIs Rand Epoch NV Rcp Rlcm Rlmc :=
  (s.Internal.ComputeProof p0 p1 p2 p3 p4 p5, s)

def IProofClientStruct.ListConnectedMiners {Ctx Addr SIs Rand Epoch NV Rcp Rlcm Rlmc : Type}
    (s : IProofClientStruct Ctx Addr SIs Rand Epoch NV Rcp Rlcm Rlmc) (p0 : Ctx) :
    Rlcm × IProofClientStruct Ctx Addr SIs Rand Epoch NV Rcp Rlcm Rlmc :=
  (s.Internal.ListConnectedMiners p0, s)

def IProofClientStruct.ListMinerConnection {Ctx Addr SIs Rand Epoch NV Rcp Rlcm Rlmc : Type}
    (s : IProofClientStruct Ctx Addr SIs Rand Epoch NV Rcp Rlcm Rlmc)
    (p0 : Ctx) (p1 : Addr) :
    Rlmc × IProofClientStruct Ctx Addr SIs Rand Epoch NV Rcp Rlcm Rlmc :=
  (s.Internal.ListMinerConnection p0 p1, s)

structure IProofServiceProviderInternal (Ctx Ppol Resp Rlpe Rrpe : Type) where
  ListenProofEvent : Ctx → Ppol → Rlpe
  ResponseProofEvent : Ctx → Resp → Rrpe

structure IProofServiceProviderStruct (Ctx Ppol Resp Rlpe Rrpe : Type) where
  Internal : IProofServiceProviderInternal Ctx Ppol Resp Rlpe Rrpe

def IProofServiceProviderStruct.ListenProofEvent {Ctx Ppol Resp Rlpe Rrpe : Type}
    (s : IProofServiceProviderStruct Ctx Ppol Resp Rlpe Rrpe) (p0 : Ctx) (p1 : Ppol) :
    Rlpe × IProofServiceProviderStruct Ctx Ppol Resp Rlpe Rrpe :=
  (s.Internal.ListenProofEvent p0 p1, s)

def IProofServiceProviderStruct.ResponseProofEvent {Ctx Ppol Resp Rlpe Rrpe : Type}
    (s : IProofServiceProviderStruct Ctx Ppol Resp Rlpe Rrpe) (p0 : Ctx) (p1 : Resp) :
    Rrpe × IProofServiceProviderStruct Ctx Ppol Resp Rlpe Rrpe :=
  (s.Internal.ResponseProofEvent p0 p1, s)

/-- The composite proof event struct: the two constituent proxy structs
embedded, no further fields. -/
structure IProofEventStruct (Ctx Addr SIs Rand Epoch NV Rcp Rlcm Rlmc Ppol Resp Rlpe Rrpe : Type) where
  toIProofClientStruct : IProofClientStruct Ctx Addr SIs Rand Epoch NV Rcp Rlcm Rlmc
  toIProofServiceProviderStruct : IProofServiceProviderStruct Ctx Ppol Resp Rlpe Rrpe

structure IWalletClientInternal (Ctx Addr Str Bytes MMeta Rlwi Rlwibw Rwh Rws : Type) where
  ListWalletInfo : Ctx → Rlwi
  ListWalletInfoByWallet : Ctx → Str → Rlwibw
  WalletHas : Ctx → Str → Addr → Rwh
  WalletSign : Ctx → Str → Addr → Bytes → MMeta → Rws

structure IWalletClientStruct (Ctx Addr Str Bytes MMeta Rlwi Rlwibw Rwh Rws : Type) where
  Internal : IWalletClientInternal Ctx Addr Str Bytes MMeta Rlwi Rlwibw Rwh Rws

def IWalletClientStruct.ListWalletInfo {Ctx Addr Str Bytes MMeta Rlwi Rlwibw Rwh Rws : Type}
    (s : IWalletClientStruct Ctx Addr Str Bytes MMeta Rlwi Rlwibw Rwh Rws) (p0 : Ctx) :
    Rlwi × IWalletClientStruct Ctx Addr Str Bytes MMeta Rlwi Rlwibw Rwh Rws :=
  (s.Internal.ListWalletInfo p0, s)

def IWalletClientStruct.ListWalletInfoByWallet {Ctx Addr Str Bytes MMeta Rlwi Rlwibw Rwh Rws : Type}
    (s : IWalletClientStruct Ctx Addr Str Bytes MMeta Rlwi Rlwibw Rwh Rws)
    (p0 : Ctx) (p1 : Str) :
    Rlwibw × IWalletClientStruct Ctx Addr Str Bytes MMeta Rlwi Rlwibw Rwh Rws :=
  (s.Internal.ListWalletInfoByWallet p0 p1, s)

def IWalletClientStruct.WalletHas {Ctx Addr Str Bytes MMeta Rlwi Rlwibw Rwh Rws : Type}
    (s : IWalletClientStruct Ctx Addr Str Bytes MMeta Rlwi Rlwibw Rwh Rws)
    (p0 : Ctx) (p1 : Str) (p2 : Addr) :
    Rwh × IWalletClientStruct Ctx Addr Str Bytes MMeta Rlwi Rlwibw Rwh Rws :=
  (s.Internal.WalletHas p0 p1 p2, s)

def IWalletClientStruct.WalletSign {Ctx Addr Str Bytes MMeta Rlwi Rlwibw Rwh Rws : Type}
    (s : IWalletClientStruct Ctx Addr Str Bytes MMeta Rlwi Rlwibw Rwh Rws)
    (p0 : Ctx) (p1 : Str) (p2 : Addr) (p3 : Bytes) (p4 : MMeta) :
    Rws × IWalletClientStruct Ctx Addr Str Bytes MMeta Rlwi Rlwibw Rwh Rws :=
  (s.Internal.WalletSign p0 p1 p2 p3 p4, s)

structure IWalletServiceProviderInternal (Ctx UUID Addrs Wpol Resp Str Rana Rlwe Rra Rrwe Rsna : Type) where
  AddNewAddress : Ctx → UUID → Addrs → Rana
  ListenWalletEvent : Ctx → Wpol → Rlwe
  RemoveAddress : Ctx → UUID → Addrs → Rra
  ResponseWalletEvent : Ctx → Resp → Rrwe
  SupportNewAccount : Ctx → UUID → Str → Rsna

structure IWalletServiceProviderStruct (Ctx UUID Addrs Wpol Resp Str Rana Rlwe Rra Rrwe Rsna : Type) where
  Internal : IWalletServiceProviderInternal Ctx UUID Addrs Wpol Resp Str Rana Rlwe Rra Rrwe Rsna

def IWalletServiceProviderStruct.AddNewAddress
    {Ctx UUID Addrs Wpol Resp Str Rana Rlwe Rra Rrwe Rsna : Type}
    (s : IWalletServiceProviderStruct Ctx UUID Addrs Wpol Resp Str Rana Rlwe Rra Rrwe Rsna)
    (p0 : Ctx) (p1 : UUID) (p2 : Addrs) :
    Rana × IWalletServiceProviderStruct Ctx UUID Addrs Wpol Resp Str Rana Rlwe Rra Rrwe Rsna :=
  (s.Internal.AddNewAddress p0 p1 p2, s)

def IWalletServiceProviderStruct.ListenWalletEvent
    {Ctx UUID Addrs Wpol Resp Str Rana Rlwe Rra Rrwe Rsna : Type}
    (s : IWalletServiceProviderStruct Ctx UUID Addrs Wpol Resp Str Rana Rlwe Rra Rrwe Rsna)
    (p0 : Ctx) (p1 : Wpol) :
    Rlwe × IWalletServiceProviderStruct Ctx UUID Addrs Wpol Resp Str Rana Rlwe Rra Rrwe Rsna :=
  (s.Internal.ListenWalletEvent p0 p1, s)

def IWalletServiceProviderStruct.RemoveAddress
    {Ctx UUID Addrs Wpol Resp Str Rana Rlwe Rra Rrwe Rsna : Type}
    (s : IWalletServiceProviderStruct Ctx UUID Addrs Wpol Resp Str Rana Rlwe Rra Rrwe Rsna)
    (p0 : Ctx) (p1 : UUID) (p2 : Addrs) :
    Rra × IWalletServiceProviderStruct Ctx UUID Addrs Wpol Resp Str Rana Rlwe Rra Rrwe Rsna :=
  (s.Internal.RemoveAddress p0 p1 p2, s)

def IWalletServiceProviderStruct.ResponseWalletEvent
    {Ctx UUID Addrs Wpol Resp Str Rana Rlwe Rra Rrwe Rsna : Type}
    (s : IWalletServiceProviderStruct Ctx UUID Addrs Wpol Resp Str Rana Rlwe Rra Rrwe Rsna)
    (p0 : Ctx) (p1 : Resp) :
    Rrwe × IWalletServiceProviderStruct Ctx UUID Addrs Wpol Resp Str Rana Rlwe Rra Rrwe Rsna :=
  (s.Internal.ResponseWalletEvent p0 p1, s)

def IWalletServiceProviderStruct.SupportNewAccount
    {Ctx UUID Addrs Wpol Resp Str Rana Rlwe Rra Rrwe Rsna : Type}
    (s : IWalletServiceProviderStruct Ctx UUID Addrs Wpol Resp Str Rana Rlwe Rra Rrwe Rsna)
    (p0 : Ctx) (p1 : UUID) (p2 : Str) :
    Rsna × IWalletServiceProviderStruct Ctx UUID Addrs Wpol Resp Str Rana Rlwe Rra Rrwe Rsna :=
  (s.Internal.SupportNewAccount p0 p1 p2, s)

/-- The composite wallet event struct. -/
structure IWalletEventStruct (Ctx Addr Str Bytes MMeta Rlwi Rlwibw Rwh Rws UUID Addrs Wpol Resp Rana Rlwe Rra Rrwe Rsna : Type) where
  toIWalletClientStruct : IWalletClientStruct Ctx Addr Str Bytes MMeta Rlwi Rlwibw Rwh Rws
  toIWalletServiceProviderStruct : IWalletServiceProviderStruct Ctx UUID Addrs Wpol Resp Str Rana Rlwe Rra Rrwe Rsna

structure IMarketClientInternal (Ctx Addr Cid SRef Off Sz Str Riu Rlmcs Rsup : Type) where
  IsUnsealed : Ctx → Addr → Cid → SRef → Off → Sz → Riu
  ListMarketConnectionsState : Ctx → Rlmcs
  SectorsUnsealPiece : Ctx → Addr → Cid → SRef → Off → Sz → Str → Rsup

structure IMarketClientStruct (Ctx Addr Cid SRef Off Sz Str Riu Rlmcs Rsup : Type) where
  Internal : IMarketClientInternal Ctx Addr Cid SRef Off Sz Str Riu Rlmcs Rsup

def IMarketClientStruct.IsUnsealed {Ctx Addr Cid SRef Off Sz Str Riu Rlmcs Rsup : Type}
    (s : IMarketClientStruct Ctx Addr Cid SRef Off Sz Str Riu Rlmcs Rsup)
    (p0 : Ctx) (p1 : Addr) (p2 : Cid) (p3 : SRef) (p4 : Off) (p5 : Sz) :
    Riu × IMarketClientStruct Ctx Addr Cid SRef Off Sz Str Riu Rlmcs Rsup :=
  (s.Internal.IsUnsealed p0 p1 p2 p3 p4 p5, s)

def IMarketClientStruct.ListMarketConnectionsState
    {Ctx Addr Cid SRef Off Sz Str Riu Rlmcs Rsup : Type}
    (s : IMarketClientStruct Ctx Addr Cid SRef Off Sz Str Riu Rlmcs Rsup) (p0 : Ctx) :
    Rlmcs × IMarketClientStruct Ctx Addr Cid SRef Off Sz Str Riu Rlmcs Rsup :=
  (s.Internal.ListMarketConnectionsState p0, s)

def IMarketClientStruct.SectorsUnsealPiece {Ctx Addr Cid SRef Off Sz Str Riu Rlmcs Rsup : Type}
    (s : IMarketClientStruct Ctx Addr Cid SRef Off Sz Str Riu Rlmcs Rsup)
    (p0 : Ctx) (p1 : Addr) (p2 : Cid) (p3 : SRef) (p4 : Off) (p5 : Sz) (p6 : Str) :
    Rsup × IMarketClientStruct Ctx Addr Cid SRef Off Sz Str Riu Rlmcs Rsup :=
  (s.Internal.SectorsUnsealPiece p0 p1 p2 p3 p4 p5 p6, s)

structure IMarketServiceProviderInternal (Ctx Mpol Resp Rlme Rrme : Type) where
  ListenMarketEvent : Ctx → Mpol → Rlme
  ResponseMarketEvent : Ctx → Resp → Rrme

structure IMarketServiceProviderStruct (Ctx Mpol Resp Rlme Rrme : Type) where
  Internal : IMarketServiceProviderInternal Ctx Mpol Resp Rlme Rrme

def IMarketServiceProviderStruct.ListenMarketEvent {Ctx Mpol Resp Rlme Rrme : Type}
    (s : IMarketServiceProviderStruct Ctx Mpol Resp Rlme Rrme) (p0 : Ctx) (p1 : Mpol) :
    Rlme × IMarketServiceProviderStruct Ctx Mpol Resp Rlme Rrme :=
  (s.Internal.ListenMarketEvent p0 p1, s)

def IMarketServiceProviderStruct.ResponseMarketEvent {Ctx Mpol Resp Rlme Rrme : Type}
    (s : IMarketServiceProviderStruct Ctx Mpol Resp Rlme Rrme) (p0 : Ctx) (p1 : Resp) :
    Rrme × IMarketServiceProviderStruct Ctx Mpol Resp Rlme Rrme :=
  (s.Internal.ResponseMarketEvent p0 p1, s)

/-- The composite market event struct. -/
structure IMarketEventStruct (Ctx Addr Cid SRef Off Sz Str Riu Rlmcs Rsup Mpol Resp Rlme Rrme : Type) where
  toIMarketClientStruct : IMarketClientStruct Ctx Addr Cid SRef Off Sz Str Riu Rlmcs Rsup
  toIMarketServiceProviderStruct : IMarketServiceProviderStruct Ctx Mpol Resp Rlme Rrme

structure IGatewayInternal (Ctx Rver : Type) where
  Version : Ctx → Rver

/-- The top gateway struct: the three composite event structs embedded plus
its own one-method Internal table. -/
structure IGatewayStruct (Ctx Addr SIs Rand Epoch NV Rcp Rlcm Rlmc Ppol Resp Rlpe Rrpe Str Bytes MMeta Rlwi Rlwibw Rwh Rws UUID Addrs Wpol Rana Rlwe Rra Rrwe Rsna Cid SRef Off Sz Riu Rlmcs Rsup Mpol Rlme Rrme Rver : Type) where
  toIProofEventStruct : IProofEventStruct Ctx Addr SIs Rand Epoch NV Rcp Rlcm Rlmc Ppol Resp Rlpe Rrpe
  toIWalletEventStruct : IWalletEventStruct Ctx Addr Str Bytes MMeta Rlwi Rlwibw Rwh Rws UUID Addrs Wpol Resp Rana Rlwe Rra Rrwe Rsna
  toIMarketEventStruct : IMarketEventStruct Ctx Addr Cid SRef Off Sz Str Riu Rlmcs Rsup Mpol Resp Rlme Rrme
  Internal : IGatewayInternal Ctx Rver

def IGatewayStruct.Version
    {Ctx Addr SIs Rand Epoch NV Rcp Rlcm Rlmc Ppol Resp Rlpe Rrpe Str Bytes MMeta Rlwi Rlwibw Rwh Rws UUID Addrs Wpol Rana Rlwe Rra Rrwe Rsna Cid SRef Off Sz Riu Rlmcs Rsup Mpol Rlme Rrme Rver : Type}
    (s : IGatewayStruct Ctx Addr SIs Rand Epoch NV Rcp Rlcm Rlmc Ppol Resp Rlpe Rrpe Str Bytes MMeta Rlwi Rlwibw Rwh Rws UUID Addrs Wpol Rana Rlwe Rra Rrwe Rsna Cid SRef Off Sz Riu Rlmcs Rsup Mpol Rlme Rrme Rver)
    (p0 : Ctx) :
    Rver × IGatewayStruct Ctx Addr SIs Rand Epoch NV Rcp Rlcm Rlmc Ppol Resp Rlpe Rrpe Str Bytes MMeta Rlwi Rlwibw Rwh Rws UUID Addrs Wpol Rana Rlwe Rra Rrwe Rsna Cid SRef Off Sz Riu Rlmcs Rsup Mpol Rlme Rrme Rver :=
  (s.Internal.Version p0, s)

/-- C9: every forwarding method declared in proxy_gen.go returns exactly the
result of applying the matching Internal function-pointer field to the same
arguments, and leaves the receiver unchanged (the second component of each
embedded method is the post-state of the receiver). -/
theorem c9_forwarding_methods :
    (∀ {Ctx Addr SIs Rand Epoch NV Rcp Rlcm Rlmc : Type}
      (s : IProofClientStruct Ctx Addr SIs Rand Epoch NV Rcp Rlcm Rlmc)
      (p0 : Ctx) (p1 : Addr) (p2 : SIs) (p3 : Rand) (p4 : Epoch) (p5 : NV),
      s.ComputeProof p0 p1 p2 p3 p4 p5 =
        (s.Internal.ComputeProof p0 p1 p2 p3 p4 p5, s)) ∧
    (∀ {Ctx Addr SIs Rand Epoch NV Rcp Rlcm Rlmc : Type}
      (s : IProofClientStruct Ctx Addr SIs Rand Epoch NV Rcp Rlcm Rlmc) (p0 : Ctx),
      s.ListConnectedMiners p0 = (s.Internal.ListConnectedMiners p0, s)) ∧
    (∀ {Ctx Addr SIs Rand Epoch NV Rcp Rlcm Rlmc : Type}
      (s : IProofClientStruct Ctx Addr SIs Rand Epoch NV Rcp Rlcm Rlmc)
      (p0 : Ctx) (p1 : Addr),
      s.ListMinerConnection p0 p1 = (s.Internal.ListMinerConnection p0 p1, s)) ∧
    (∀ {Ctx Ppol Resp Rlpe Rrpe : Type}
      (s : IProofServiceProviderStruct Ctx Ppol Resp Rlpe Rrpe) (p0 : Ctx) (p1 : Ppol),
      s.ListenProofEvent p0 p1 = (s.Internal.ListenProofEvent p0 p1, s)) ∧
    (∀ {Ctx Ppol Resp Rlpe Rrpe : Type}
      (s : IProofServiceProviderStruct Ctx Ppol Resp Rlpe Rrpe) (p0 : Ctx) (p1 : Resp),
      s.ResponseProofEvent p0 p1 = (s.Internal.ResponseProofEvent p0 p1, s)) ∧
    (∀ {Ctx Addr Str Bytes MMeta Rlwi Rlwibw Rwh Rws : Type}
      (s : IWalletClientStruct Ctx Addr Str Bytes MMeta Rlwi Rlwibw Rwh Rws) (p0 : Ctx),
      s.ListWalletInfo p0 = (s.Internal.ListWalletInfo p0, s)) ∧
    (∀ {Ctx Addr Str Bytes MMeta Rlwi Rlwibw Rwh Rws : Type}
      (s : IWalletClientStruct Ctx Addr Str Bytes MMeta Rlwi Rlwibw Rwh Rws)
      (p0 : Ctx) (p1 : Str),
      s.ListWalletInfoByWallet p0 p1 = (s.Internal.ListWalletInfoByWallet p0 p1, s)) ∧
    (∀ {Ctx Addr Str Bytes MMeta Rlwi Rlwibw Rwh Rws : Type}
      (s : IWalletClientStruct Ctx Addr Str Bytes MMeta Rlwi Rlwibw Rwh Rws)
      (p0 : Ctx) (p1 : Str) (p2 : Addr),
      s.WalletHas p0 p1 p2 = (s.Internal.WalletHas p0 p1 p2, s)) ∧
    (∀ {Ctx Addr Str Bytes MMeta Rlwi Rlwibw Rwh Rws : Type}
      (s : IWalletClientStruct Ctx Addr Str Bytes MMeta Rlwi Rlwibw Rwh Rws)
      (p0 : Ctx) (p1 : Str) (p2 : Addr) (p3 : Bytes) (p4 : MMeta),
      s.WalletSign p0 p1 p2 p3 p4 = (s.Internal.WalletSign p0 p1 p2 p3 p4, s)) ∧
    (∀ {Ctx UUID Addrs Wpol Resp Str Rana Rlwe Rra Rrwe Rsna : Type}
      (s : IWalletServiceProviderStruct Ctx UUID Addrs Wpol Resp Str Rana Rlwe Rra Rrwe Rsna)
      (p0 : Ctx) (p1 : UUID) (p2 : Addrs),
      s.AddNewAddress p0 p1 p2 = (s.Internal.AddNewAddress p0 p1 p2, s)) ∧
    (∀ {Ctx UUID Addrs Wpol Resp Str Rana Rlwe Rra Rrwe Rsna : Type}
      (s : IWalletServiceProviderStruct Ctx UUID Addrs Wpol Resp Str Rana Rlwe Rra Rrwe Rsna)
      (p0 : Ctx) (p1 : Wpol),
      s.ListenWalletEvent p0 p1 = (s.Internal.ListenWalletEvent p0 p1, s)) ∧
    (∀ {Ctx UUID Addrs Wpol Resp Str Rana Rlwe Rra Rrwe Rsna : Type}
      (s : IWalletServiceProviderStruct Ctx UUID Addrs Wpol Resp Str Rana Rlwe Rra Rrwe Rsna)
      (p0 : Ctx) (p1 : UUID) (p2 : Addrs),
      s.RemoveAddress p0 p1 p2 = (s.Internal.RemoveAddress p0 p1 p2, s)) ∧
    (∀ {Ctx UUID Addrs Wpol Resp Str Rana Rlwe Rra Rrwe Rsna : Type}
      (s : IWalletServiceProviderStruct Ctx UUID Addrs Wpol Resp Str Rana Rlwe Rra Rrwe Rsna)
      (p0 : Ctx) (p1 : Resp),
      s.ResponseWalletEvent p0 p1 = (s.Internal.ResponseWalletEvent p0 p1, s)) ∧
    (∀ {Ctx UUID Addrs Wpol Resp Str Rana Rlwe Rra Rrwe Rsna : Type}
      (s : IWalletServiceProviderStruct Ctx UUID Addrs Wpol Resp Str Rana Rlwe Rra Rrwe Rsna)
      (p0 : Ctx) (p1 : UUID) (p2 : Str),
      s.SupportNewAccount p0 p1 p2 = (s.Internal.SupportNewAccount p0 p1 p2, s)) ∧
    (∀ {Ctx Addr Cid SRef Off Sz Str Riu Rlmcs Rsup : Type}
      (s : IMarketClientStruct Ctx Addr Cid SRef Off Sz Str Riu Rlmcs Rsup)
      (p0 : Ctx) (p1 : Addr) (p2 : Cid) (p3 : SRef) (p4 : Off) (p5 : Sz),
      s.IsUnsealed p0 p1 p2 p3 p4 p5 = (s.Internal.IsUnsealed p0 p1 p2 p3 p4 p5, s)) ∧
    (∀ {Ctx Addr Cid SRef Off Sz Str Riu Rlmcs Rsup : Type}
      (s : IMarketClientStruct Ctx Addr Cid SRef Off Sz Str Riu Rlmcs Rsup) (p0 : Ctx),
      s.ListMarketConnectionsState p0 = (s.Internal.ListMarketConnectionsState p0, s)) ∧
    (∀ {Ctx Addr Cid SRef Off Sz Str Riu Rlmcs Rsup : Type}
      (s : IMarketClientStruct Ctx Addr Cid SRef Off Sz Str Riu Rlmcs Rsup)
      (p0 : Ctx) (p1 : Addr) (p2 : Cid) (p3 : SRef) (p4 : Off) (p5 : Sz) (p6 : Str),
      s.SectorsUnsealPiece p0 p1 p2 p3 p4 p5 p6 =
        (s.Internal.SectorsUnsealPiece p0 p1 p2 p3 p4 p5 p6, s)) ∧
    (∀ {Ctx Mpol Resp Rlme Rrme : Type}
      (s : IMarketServiceProviderStruct Ctx Mpol Resp Rlme Rrme) (p0 : Ctx) (p1 : Mpol),
      s.ListenMarketEvent p0 p1 = (s.Internal.ListenMarketEvent p0 p1, s)) ∧
    (∀ {Ctx Mpol Resp Rlme Rrme : Type}
      (s : IMarketServiceProviderStruct Ctx Mpol Resp Rlme Rrme) (p0 : Ctx) (p1 : Resp),
      s.ResponseMarketEvent p0 p1 = (s.Internal.ResponseMarketEvent p0 p1, s)) ∧
    (∀ {Ctx Addr SIs Rand Epoch NV Rcp Rlcm Rlmc Ppol Resp Rlpe Rrpe Str Bytes MMeta Rlwi Rlwibw Rwh Rws UUID Addrs Wpol Rana Rlwe Rra Rrwe Rsna Cid SRef Off Sz Riu Rlmcs Rsup Mpol Rlme Rrme Rver : Type}
      (s : IGatewayStruct Ctx Addr SIs Rand Epoch NV Rcp Rlcm Rlmc Ppol Resp Rlpe Rrpe Str Bytes MMeta Rlwi Rlwibw Rwh Rws UUID Addrs Wpol Rana Rlwe Rra Rrwe Rsna Cid SRef Off Sz Riu Rlmcs Rsup Mpol Rlme Rrme Rver)
      (p0 : Ctx),
      s.Version p0 = (s.Internal.Version p0, s)) := by
  refine ⟨?_, ?_, ?_, ?_, ?_, ?_, ?_, ?_, ?_, ?_, ?_, ?_, ?_, ?_, ?_, ?_, ?_, ?_, ?_, ?_⟩ <;>
    intros <;> rfl

end GatewayProxy
